import Mathlib

/-!
Shallow embedding of `src/perception-toolkit/meaning-maker.ts` (the
`MeaningMaker` class): the fetch policy gate (`checkIsFetchableURL`), the
page-metadata cache and fetch orchestrator (`tryExtractPageMetadata`,
`savePageMetadata`), the enrichment merger
(`attemptEnrichContentWithPageMetadata`) and the coordinator entry point
(`markerFound`).

Modelling choices, all driven by the JavaScript semantics of the source:

* A JS `URL` object is a `URLObj`: the parsed data (`href`, `origin`)
  together with an allocation id.  `new URL(s)` always creates a fresh
  object, so each parse in the model allocates a fresh id from the state
  counter `nextId`.  The `Map<URL, Thing>` cache is keyed by object
  identity, i.e. by this id.
* A `Thing` (structured content record) is an association list of string
  keys to string values; property reads, `hasOwnProperty` and
  `Object.assign` are modelled on this representation.  Values that matter
  to the claims (`@type`, `url`, `name`) are strings in the source's
  scenarios, and JS strict equality on strings is string equality.
* Things are mutable JS objects, so they live in a modelled heap
  (`heap : Nat → Option Thing`); a `Content.thing` holds a reference.
  `Object.assign(target, source)` mutates `target` in place, which the
  model renders as a heap update at the target reference.
* The external collaborators (URL parsing, `fetchAsDocument`,
  `extractPageMetadata`, `ArtifactLoader.fromElement`, the
  `ArtifactDealer`) are parameters gathered in `Env`.  The dealer is a
  function of the marker and the current artifact store contents, which is
  exactly what the temporal claim about `markerFound` is about.
* Every invocation of the document fetcher is recorded in `fetchLog`
  (the spec's "fetch-call counter in a test double"), and every dealer
  query in `dealerLog` together with the store contents it saw.
* Exceptions: `new URL` throwing on an unparseable string is
  `parseURL = none`; all other paths in the source are total, matching
  the spec's "no fatal errors" taxonomy.
-/

/-- Parse result of `new URL(s)`: the data of an absolute URL, without
object identity. -/
structure URLSpec where
  href : String
  origin : String
deriving DecidableEq

/-- A JS `URL` instance: parsed data plus the allocation id that models
object identity (`Map` keys compare by identity). -/
structure URLObj where
  id : Nat
  href : String
  origin : String
deriving DecidableEq

/-- A structured content record (schema.org `Thing`): an association list
of property names to values.  JS objects have no duplicate keys; theorems
that need this carry a `Nodup` hypothesis on the key list. -/
abbrev Thing := List (String × String)

/-- Opaque handle for a parsed `Document`. -/
abbrev Doc := Nat

/-- Opaque handle for an `ARArtifact` catalog entry. -/
abbrev ARArtifact := Nat

/-- `result.content` of a `NearbyResult`: either a raw string or a
reference to a `Thing` on the modelled heap. -/
inductive Content where
  | str (s : String)
  | thing (ref : Nat)
deriving DecidableEq

/-- One currently-relevant catalog entry; only the `content` field is
touched by the code under verification.  `none` models an absent
`content`. -/
structure NearbyResult where
  content : Option Content
deriving DecidableEq

/-- The found/lost delta produced by one detection event. -/
structure NearbyResultDelta where
  found : List NearbyResult
  lost : List NearbyResult
deriving DecidableEq

/-- A recognized marker with its string payload. -/
structure Marker where
  value : String
deriving DecidableEq

/-- JS truthiness of `result.content`: absent content and the empty
string are falsy; every object (thing reference) is truthy. -/
def contentFalsy : Option Content → Bool
  | none => true
  | some (.str s) => s == ""
  | some (.thing _) => false

/-- Property read `t[k]`: first entry with the key (JS objects have no
duplicate keys, so first = only). -/
def getProp : Thing → String → Option String
  | [], _ => none
  | (k1, v1) :: rest, k => if k1 = k then some v1 else getProp rest k

/-- `t.hasOwnProperty(k)`. -/
def hasOwnProperty (t : Thing) (k : String) : Bool :=
  (getProp t k).isSome

/-- JS truthiness of the property access `t[k]` for string values: the
property exists and is not the empty string. -/
def propTruthy (t : Thing) (k : String) : Bool :=
  match getProp t k with
  | some v => v != ""
  | none => false

/-- `t[k] = v`: replace the first occurrence of the key in place, or
append the new property at the end (JS property insertion order). -/
def setProp : Thing → String → String → Thing
  | [], k, v => [(k, v)]
  | (k1, v1) :: rest, k, v =>
      if k1 = k then (k, v) :: rest else (k1, v1) :: setProp rest k v

/-- `Object.assign(target, source)`: write each own property of `source`
onto `target`, in order, and return the (mutated) target value. -/
def objectAssign (target source : Thing) : Thing :=
  source.foldl (fun acc kv => setProp acc kv.1 kv.2) target

/-- The mutable state of a `MeaningMaker` instance, plus the allocation
counters and observation logs of the model. -/
structure MMState where
  /-- allocator for `URL` object identities -/
  nextId : Nat
  /-- allocator for `Thing` heap references -/
  nextRef : Nat
  /-- the modelled object heap for `Thing`s -/
  heap : Nat → Option Thing
  /-- `pageMetadataCache : Map<URL, Thing>`, keyed by URL instance id,
  holding heap references -/
  cache : Nat → Option Nat
  /-- every `href` passed to `fetchAsDocument`, in order -/
  fetchLog : List String
  /-- the `LocalArtifactStore` contents -/
  store : List ARArtifact
  /-- every dealer query: the marker value and the store contents the
  dealer saw at that moment -/
  dealerLog : List (String × List ARArtifact)

/-- The external collaborators of `MeaningMaker`, as pure functions. -/
structure Env where
  /-- `new URL(s)` without a base: `none` means the constructor throws
  (relative and malformed strings) -/
  parseURL : String → Option URLSpec
  /-- `fetchAsDocument`, keyed by href; `none` is any fetch failure -/
  fetchDoc : String → Option Doc
  /-- `extractPageMetadata(doc, url)`; total, returns a fresh record -/
  extractMeta : Doc → String → Thing
  /-- `artloader.fromElement(doc, url)` -/
  loadFromElement : Doc → String → List ARArtifact
  /-- `artdealer.markerFound(marker)` as a function of the marker and the
  current artifact store contents -/
  dealerMarkerFound : Marker → List ARArtifact → NearbyResultDelta
  /-- `window.location.origin` -/
  windowOrigin : String

/-- Read a thing reference off the heap (dereferencing a live JS object
never fails; `[]` is a dead-reference default the theorems exclude). -/
def heapGet (σ : MMState) (ref : Nat) : Thing :=
  (σ.heap ref).getD []

/-- `pageMetadataCache.get(url)` (and `.has`): lookup by instance id. -/
def pageMetadataCacheGet (σ : MMState) (url : URLObj) : Option Nat :=
  σ.cache url.id

/-- `normalizeShouldFetchFn` (meaning-maker.ts lines 175-186): absent
policy defaults to same-origin; an origin list becomes
`!!origins.find(o => o === url.origin)` (note the JS truthiness of the
found element); a callback is used as-is. -/
def normalizeShouldFetchFn (env : Env)
    (shouldFetchArtifactsFrom : Option (Sum (URLObj → Bool) (List String))) :
    URLObj → Bool :=
  match shouldFetchArtifactsFrom with
  | none => fun url => url.origin == env.windowOrigin
  | some (.inr origins) => fun url =>
      match origins.find? (fun o => o == url.origin) with
      | some o => o != ""
      | none => false
  | some (.inl f) => f

/-- `checkIsFetchableURL` (lines 188-202): parse with no base URL (a
failure is caught, not raised), allocate the fresh `URL` instance, then
apply the policy predicate; return the URL exactly when allowed. -/
def checkIsFetchableURL (env : Env) (potentialUrl : String)
    (shouldFetchArtifactsFrom : URLObj → Bool) (σ : MMState) :
    Option URLObj × MMState :=
  match env.parseURL potentialUrl with
  | none => (none, σ)
  | some spec =>
      let url : URLObj := ⟨σ.nextId, spec.href, spec.origin⟩
      let σ1 := { σ with nextId := σ.nextId + 1 }
      if shouldFetchArtifactsFrom url then (some url, σ1) else (none, σ1)

/-- `savePageMetadata` (lines 222-226): extract the metadata record,
allocate it on the heap, store the reference in the cache under the URL
instance id, and return the reference. -/
def savePageMetadata (env : Env) (doc : Doc) (url : URLObj) (σ : MMState) :
    Nat × MMState :=
  let pageMetadata := env.extractMeta doc url.href
  let r := σ.nextRef
  (r, { σ with
        nextRef := r + 1,
        heap := fun x => if x = r then some pageMetadata else σ.heap x,
        cache := fun x => if x = url.id then some r else σ.cache x })

/-- `tryExtractPageMetadata` (lines 204-220): gate the candidate, consult
the identity-keyed cache, otherwise fetch, extract and cache.  Every
fetcher invocation is appended to `fetchLog`. -/
def tryExtractPageMetadata (env : Env) (potentialUrl : String)
    (shouldFetchArtifactsFrom : URLObj → Bool) (σ : MMState) :
    Option Nat × MMState :=
  match checkIsFetchableURL env potentialUrl shouldFetchArtifactsFrom σ with
  | (none, σ1) => (none, σ1)
  | (some url, σ1) =>
      match pageMetadataCacheGet σ1 url with
      | some r => (some r, σ1)
      | none =>
          let σ2 := { σ1 with fetchLog := σ1.fetchLog ++ [url.href] }
          match env.fetchDoc url.href with
          | none => (none, σ2)
          | some doc =>
              let (r, σ3) := savePageMetadata env doc url σ2
              (some r, σ3)

/-- `loadArtifactsFromHtmlUrl` (lines 75-85): fetch the document (logged);
on failure return `[]` with no other state change; on success capture page
metadata, extract artifacts and add them to the store. -/
def loadArtifactsFromHtmlUrl (env : Env) (url : URLObj) (σ : MMState) :
    List ARArtifact × MMState :=
  let σ1 := { σ with fetchLog := σ.fetchLog ++ [url.href] }
  match env.fetchDoc url.href with
  | none => ([], σ1)
  | some doc =>
      let (_, σ2) := savePageMetadata env doc url σ1
      let artifacts := env.loadFromElement doc url.href
      (artifacts, { σ2 with store := σ2.store ++ artifacts })

/-- The body of the enrichment loop (lines 232-251) for one
`NearbyResult`.  String content is replaced wholesale on success; thing
content with a truthy `url` and no `name` is merged via
`Object.assign(pageMetadata, result.content)` when the `@type`s agree,
which mutates the heap cell of the fetched metadata itself. -/
def enrichOne (env : Env) (shouldFetchArtifactsFrom : URLObj → Bool)
    (result : NearbyResult) (σ : MMState) : NearbyResult × MMState :=
  if contentFalsy result.content then (result, σ)
  else
    match result.content with
    | none => (result, σ)
    | some (.str s) =>
        match tryExtractPageMetadata env s shouldFetchArtifactsFrom σ with
        | (some r, σ1) => ({ content := some (.thing r) }, σ1)
        | (none, σ1) => (result, σ1)
    | some (.thing ref) =>
        let t := heapGet σ ref
        if propTruthy t "url" && !(hasOwnProperty t "name") then
          match getProp t "url" with
          | none => (result, σ)
          | some u =>
              match tryExtractPageMetadata env u shouldFetchArtifactsFrom σ with
              | (none, σ1) => (result, σ1)
              | (some mref, σ1) =>
                  let m := heapGet σ1 mref
                  let t1 := heapGet σ1 ref
                  if getProp m "@type" = getProp t1 "@type" then
                    let merged := objectAssign m t1
                    ({ content := some (.thing mref) },
                     { σ1 with
                       heap := fun x => if x = mref then some merged else σ1.heap x })
                  else (result, σ1)
        else (result, σ)

/-- `attemptEnrichContentWithPageMetadata` (lines 228-254): process the
results strictly in order, threading the state. -/
def attemptEnrichContentWithPageMetadata (env : Env)
    (results : List NearbyResult) (shouldFetchArtifactsFrom : URLObj → Bool)
    (σ : MMState) : List NearbyResult × MMState :=
  match results with
  | [] => ([], σ)
  | result :: rest =>
      let (r1, σ1) := enrichOne env shouldFetchArtifactsFrom result σ
      let (rest1, σ2) :=
        attemptEnrichContentWithPageMetadata env rest shouldFetchArtifactsFrom σ1
      (r1 :: rest1, σ2)

/-- `markerFound` (lines 103-117): normalize the policy, index the marker
value if it is a fetchable URL, then query the dealer (logged with the
store contents it sees) and enrich the found list of its delta. -/
def markerFound (env : Env) (marker : Marker)
    (shouldFetchArtifactsFrom : Option (Sum (URLObj → Bool) (List String)))
    (σ : MMState) : NearbyResultDelta × MMState :=
  let p := normalizeShouldFetchFn env shouldFetchArtifactsFrom
  let (urlOpt, σ1) := checkIsFetchableURL env marker.value p σ
  let σ2 :=
    match urlOpt with
    | some url => (loadArtifactsFromHtmlUrl env url σ1).2
    | none => σ1
  let results := env.dealerMarkerFound marker σ2.store
  let σ3 := { σ2 with dealerLog := σ2.dealerLog ++ [(marker.value, σ2.store)] }
  let (found1, σ4) :=
    attemptEnrichContentWithPageMetadata env results.found p σ3
  ({ found := found1, lost := results.lost }, σ4)

/-! ### Helper lemmas about the object model -/

theorem getProp_eq_none_of_not_mem (t : Thing) (k : String)
    (h : k ∉ t.map Prod.fst) : getProp t k = none := by
  induction t with
  | nil => rfl
  | cons kv rest ih =>
      obtain ⟨k1, v1⟩ := kv
      simp only [List.map_cons, List.mem_cons] at h
      push_neg at h
      have h1 : ¬ k1 = k := fun he => h.1 he.symm
      simp [getProp, h1, ih h.2]

theorem getProp_setProp (base : Thing) (k1 v1 k : String) :
    getProp (setProp base k1 v1) k = if k = k1 then some v1 else getProp base k := by
  induction base with
  | nil =>
      by_cases h : k = k1
      · subst h; simp [setProp, getProp]
      · have h1 : ¬ k1 = k := fun he => h he.symm
        simp [setProp, getProp, h, h1]
  | cons kv rest ih =>
      obtain ⟨k2, v2⟩ := kv
      by_cases h21 : k2 = k1
      · subst h21
        by_cases h : k = k2
        · subst h; simp [setProp, getProp]
        · have h1 : ¬ k2 = k := fun he => h he.symm
          simp [setProp, getProp, h, h1]
      · by_cases h2 : k2 = k
        · subst h2
          have hk1 : ¬ k2 = k1 := h21
          simp [setProp, getProp, hk1]
        · simp [setProp, getProp, h21, h2, ih]

theorem getProp_objectAssign (over : Thing) :
    ∀ (base : Thing) (k : String), (over.map Prod.fst).Nodup →
      getProp (objectAssign base over) k =
        match getProp over k with
        | some v => some v
        | none => getProp base k := by
  induction over with
  | nil =>
      intro base k _
      simp [objectAssign, getProp]
  | cons kv rest ih =>
      obtain ⟨k1, v1⟩ := kv
      intro base k h
      simp only [List.map_cons, List.nodup_cons] at h
      have hfold : objectAssign base ((k1, v1) :: rest) =
          objectAssign (setProp base k1 v1) rest := rfl
      rw [hfold, ih (setProp base k1 v1) k h.2]
      by_cases hk : k1 = k
      · subst hk
        have hnone : getProp rest k1 = none :=
          getProp_eq_none_of_not_mem rest k1 h.1
        simp [getProp, hnone, getProp_setProp]
      · have hk1 : ¬ k = k1 := fun he => hk he.symm
        cases hgr : getProp rest k <;>
          simp [getProp, hk, hgr, getProp_setProp, hk1]

theorem checkIsFetchableURL_state (env : Env) (s : String)
    (p : URLObj → Bool) (σ : MMState) :
    ((checkIsFetchableURL env s p σ).2).heap = σ.heap ∧
    ((checkIsFetchableURL env s p σ).2).nextRef = σ.nextRef ∧
    ((checkIsFetchableURL env s p σ).2).cache = σ.cache ∧
    ((checkIsFetchableURL env s p σ).2).fetchLog = σ.fetchLog ∧
    ((checkIsFetchableURL env s p σ).2).store = σ.store := by
  unfold checkIsFetchableURL
  cases env.parseURL s with
  | none => exact ⟨rfl, rfl, rfl, rfl, rfl⟩
  | some spec =>
      simp only
      split <;> exact ⟨rfl, rfl, rfl, rfl, rfl⟩

theorem tryExtractPageMetadata_heap_preserved (env : Env) (s : String)
    (p : URLObj → Bool) (σ : MMState) (r : Nat) (hr : r < σ.nextRef) :
    ((tryExtractPageMetadata env s p σ).2).heap r = σ.heap r := by
  have hck := checkIsFetchableURL_state env s p σ
  unfold tryExtractPageMetadata
  cases hc : checkIsFetchableURL env s p σ with
  | mk urlOpt σ1 =>
      rw [hc] at hck
      have h1 : σ1.heap = σ.heap := hck.1
      have h1r : σ1.nextRef = σ.nextRef := hck.2.1
      cases urlOpt with
      | none => exact congrFun h1 r
      | some url =>
          simp only
          cases pageMetadataCacheGet σ1 url with
          | some r0 => exact congrFun h1 r
          | none =>
              simp only
              cases env.fetchDoc url.href with
              | none => exact congrFun h1 r
              | some doc =>
                  have hne : ¬ r = σ1.nextRef := by omega
                  simp only [savePageMetadata]
                  simp [hne, congrFun h1 r]

/-! ### Claim theorems -/

/-- C5: `checkIsFetchableURL` returns the parsed URL exactly when the
candidate string parses as an absolute URL (no base URL is supplied, so a
relative string fails to parse) and the policy predicate returns `true`
for that URL; in every other case it returns `none`, and being a total
function it raises no error. -/
theorem checkIsFetchableURL_some_iff (env : Env) (s : String)
    (p : URLObj → Bool) (σ : MMState) :
    ∀ u : URLObj, (checkIsFetchableURL env s p σ).1 = some u ↔
      (env.parseURL s = some ⟨u.href, u.origin⟩ ∧ u.id = σ.nextId ∧ p u = true) := by
  intro u
  obtain ⟨uid, uhref, uorigin⟩ := u
  unfold checkIsFetchableURL
  cases env.parseURL s with
  | none => simp
  | some spec =>
      obtain ⟨sh, so⟩ := spec
      simp only
      split
      next hptrue =>
        simp only [Option.some.injEq, URLObj.mk.injEq, URLSpec.mk.injEq]
        constructor
        · rintro ⟨h1, h2, h3⟩
          subst h1; subst h2; subst h3
          exact ⟨⟨rfl, rfl⟩, rfl, hptrue⟩
        · rintro ⟨⟨h1, h2⟩, h3, _⟩
          subst h1; subst h2; subst h3
          exact ⟨rfl, rfl, rfl⟩
      next hpfalse =>
        simp only [Option.some.injEq, URLObj.mk.injEq, URLSpec.mk.injEq]
        constructor
        · rintro h
          cases h
        · rintro ⟨⟨h1, h2⟩, h3, h4⟩
          subst h1; subst h2; subst h3
          exact absurd h4 hpfalse

/-- C10: with no policy argument, `normalizeShouldFetchFn` produces the
default predicate, which allows a URL exactly when its origin equals the
origin the page is running under (`window.location.origin`). -/
theorem default_policy_same_origin (env : Env) (u : URLObj) :
    normalizeShouldFetchFn env none u = true ↔ u.origin = env.windowOrigin := by
  simp [normalizeShouldFetchFn]

theorem attemptEnrich_singleton (env : Env) (p : URLObj → Bool)
    (res : NearbyResult) (σ : MMState) :
    attemptEnrichContentWithPageMetadata env [res] p σ =
      ([(enrichOne env p res σ).1], (enrichOne env p res σ).2) := by
  cases h : enrichOne env p res σ with
  | mk r1 σ1 =>
      simp [attemptEnrichContentWithPageMetadata, h]

theorem enrichOne_merge (env : Env) (p : URLObj → Bool) (σ : MMState)
    (res : NearbyResult) (ref : Nat) (t : Thing) (u : String)
    (mref : Nat) (σ1 : MMState) (m : Thing)
    (hcontent : res.content = some (Content.thing ref))
    (hheap : σ.heap ref = some t)
    (hurl : getProp t "url" = some u) (hu : u ≠ "")
    (hname : getProp t "name" = none)
    (htry : tryExtractPageMetadata env u p σ = (some mref, σ1))
    (hm : σ1.heap mref = some m)
    (ht1 : σ1.heap ref = some t)
    (htype : getProp m "@type" = getProp t "@type") :
    enrichOne env p res σ =
      ({ content := some (Content.thing mref) },
       { σ1 with heap := fun x => if x = mref then some (objectAssign m t) else σ1.heap x }) := by
  unfold enrichOne
  rw [hcontent]
  have hcond : (propTruthy t "url" && !(hasOwnProperty t "name")) = true := by
    simp [propTruthy, hurl, hasOwnProperty, hname, hu]
  simp only [contentFalsy, Bool.false_eq_true, if_false, heapGet, hheap,
    Option.getD_some, hcond, if_true, hurl, htry, hm, ht1, htype]

theorem enrichOne_merge_mismatch (env : Env) (p : URLObj → Bool) (σ : MMState)
    (res : NearbyResult) (ref : Nat) (t : Thing) (u : String)
    (mref : Nat) (σ1 : MMState) (m : Thing)
    (hcontent : res.content = some (Content.thing ref))
    (hheap : σ.heap ref = some t)
    (hurl : getProp t "url" = some u) (hu : u ≠ "")
    (hname : getProp t "name" = none)
    (htry : tryExtractPageMetadata env u p σ = (some mref, σ1))
    (hm : σ1.heap mref = some m)
    (ht1 : σ1.heap ref = some t)
    (htype : getProp m "@type" ≠ getProp t "@type") :
    enrichOne env p res σ = (res, σ1) := by
  unfold enrichOne
  rw [hcontent]
  have hcond : (propTruthy t "url" && !(hasOwnProperty t "name")) = true := by
    simp [propTruthy, hurl, hasOwnProperty, hname, hu]
  simp only [contentFalsy, Bool.false_eq_true, if_false, heapGet, hheap,
    Option.getD_some, hcond, if_true, hurl, htry, hm, ht1]
  rw [if_neg htype]

/-- C1: for a result whose content is a structured `Thing` with a (truthy)
`url` and no `name`, when `tryExtractPageMetadata` obtains metadata whose
`@type` strictly equals the content's `@type`, the merged record
(`Object.assign(pageMetadata, result.content)`) retains every field
already present on the original content with its original value, and takes
fields from the fetched metadata only where the original lacked them. -/
theorem enrich_merge_preserves_original_fields
    (env : Env) (p : URLObj → Bool) (σ : MMState)
    (res : NearbyResult) (ref : Nat) (t : Thing) (u : String)
    (mref : Nat) (σ1 : MMState) (m : Thing)
    (hcontent : res.content = some (Content.thing ref))
    (hheap : σ.heap ref = some t)
    (hfresh : ref < σ.nextRef)
    (hWF : (t.map Prod.fst).Nodup)
    (hurl : getProp t "url" = some u) (hu : u ≠ "")
    (hname : getProp t "name" = none)
    (htry : tryExtractPageMetadata env u p σ = (some mref, σ1))
    (hm : σ1.heap mref = some m)
    (htype : getProp m "@type" = getProp t "@type") :
    ∃ merged : Thing,
      attemptEnrichContentWithPageMetadata env [res] p σ =
        ([{ content := some (Content.thing mref) }],
         { σ1 with heap := fun x => if x = mref then some merged else σ1.heap x }) ∧
      (∀ k v, getProp t k = some v → getProp merged k = some v) ∧
      (∀ k, getProp t k = none → getProp merged k = getProp m k) := by
  have ht1 : σ1.heap ref = some t := by
    have hpres := tryExtractPageMetadata_heap_preserved env u p σ ref hfresh
    rw [htry] at hpres
    rw [hpres, hheap]
  refine ⟨objectAssign m t, ?_, ?_, ?_⟩
  · rw [attemptEnrich_singleton,
      enrichOne_merge env p σ res ref t u mref σ1 m hcontent hheap hurl hu
        hname htry hm ht1 htype]
  · intro k v hk
    rw [getProp_objectAssign t m k hWF, hk]
  · intro k hk
    rw [getProp_objectAssign t m k hWF, hk]

/-- C2: in the same situation, when the fetched metadata's `@type` is not
strictly equal to the content's `@type`, the merge is refused: the result
keeps its original content reference and the underlying record is
untouched. -/
theorem enrich_merge_refused_on_type_mismatch
    (env : Env) (p : URLObj → Bool) (σ : MMState)
    (res : NearbyResult) (ref : Nat) (t : Thing) (u : String)
    (mref : Nat) (σ1 : MMState) (m : Thing)
    (hcontent : res.content = some (Content.thing ref))
    (hheap : σ.heap ref = some t)
    (hfresh : ref < σ.nextRef)
    (hurl : getProp t "url" = some u) (hu : u ≠ "")
    (hname : getProp t "name" = none)
    (htry : tryExtractPageMetadata env u p σ = (some mref, σ1))
    (hm : σ1.heap mref = some m)
    (htype : getProp m "@type" ≠ getProp t "@type") :
    attemptEnrichContentWithPageMetadata env [res] p σ = ([res], σ1) ∧
    σ1.heap ref = some t := by
  have ht1 : σ1.heap ref = some t := by
    have hpres := tryExtractPageMetadata_heap_preserved env u p σ ref hfresh
    rw [htry] at hpres
    rw [hpres, hheap]
  refine ⟨?_, ht1⟩
  rw [attemptEnrich_singleton,
    enrichOne_merge_mismatch env p σ res ref t u mref σ1 m hcontent hheap hurl
      hu hname htry hm ht1 htype]

/-! ### Concrete scenario data (the spec's worked examples) -/

/-- The under-populated content of the spec's scenario:
`{"@type":"Event","url":"https://example.com/e1"}`. -/
def tEvent : Thing := [("@type", "Event"), ("url", "https://example.com/e1")]

/-- The metadata the spec's scenario fetch yields:
`{"@type":"Event","name":"Launch","url":"https://example.com/e1"}`. -/
def mEvent : Thing :=
  [("@type", "Event"), ("name", "Launch"), ("url", "https://example.com/e1")]

/-- Same metadata but with type tag `"Place"` (the mismatch scenario). -/
def mPlace : Thing :=
  [("@type", "Place"), ("name", "Launch"), ("url", "https://example.com/e1")]

/-- Environment for the scenario: only `https://example.com/e1` parses,
every fetch succeeds and extraction yields `mEvent`. -/
def envEvent : Env :=
  { parseURL := fun s =>
      if s = "https://example.com/e1" then
        some ⟨"https://example.com/e1", "https://example.com"⟩
      else none,
    fetchDoc := fun _ => some 0,
    extractMeta := fun _ _ => mEvent,
    loadFromElement := fun _ _ => [7],
    dealerMarkerFound := fun _ _ => ⟨[], []⟩,
    windowOrigin := "https://example.com" }

/-- Same environment but extraction yields the mismatching `mPlace`. -/
def envPlace : Env := { envEvent with extractMeta := fun _ _ => mPlace }

/-- Allow-everything fetch policy. -/
def pAll : URLObj → Bool := fun _ => true

/-- Initial state holding `tEvent` on the heap at reference 0. -/
def σEvent : MMState :=
  { nextId := 0, nextRef := 1,
    heap := fun x => if x = 0 then some tEvent else none,
    cache := fun _ => none, fetchLog := [], store := [], dealerLog := [] }

/-- State after the scenario's metadata fetch under `envEvent`. -/
def σEvent1 : MMState :=
  (tryExtractPageMetadata envEvent "https://example.com/e1" pAll σEvent).2

/-- State after the scenario's metadata fetch under `envPlace`. -/
def σPlace1 : MMState :=
  (tryExtractPageMetadata envPlace "https://example.com/e1" pAll σEvent).2

theorem enrich_merge_preserves_original_fields_witness :
    ∃ merged : Thing,
      attemptEnrichContentWithPageMetadata envEvent
          [{ content := some (Content.thing 0) }] pAll σEvent =
        ([{ content := some (Content.thing 1) }],
         { σEvent1 with
           heap := fun x => if x = 1 then some merged else σEvent1.heap x }) ∧
      (∀ k v, getProp tEvent k = some v → getProp merged k = some v) ∧
      (∀ k, getProp tEvent k = none → getProp merged k = getProp mEvent k) :=
  enrich_merge_preserves_original_fields envEvent pAll σEvent
    { content := some (Content.thing 0) } 0 tEvent "https://example.com/e1" 1
    σEvent1 mEvent rfl rfl (by decide) (by decide) (by decide) (by decide)
    (by decide) rfl rfl (by decide)

theorem enrich_merge_refused_on_type_mismatch_witness :
    attemptEnrichContentWithPageMetadata envPlace
        [{ content := some (Content.thing 0) }] pAll σEvent =
      ([{ content := some (Content.thing 0) }], σPlace1) ∧
    σPlace1.heap 0 = some tEvent :=
  enrich_merge_refused_on_type_mismatch envPlace pAll σEvent
    { content := some (Content.thing 0) } 0 tEvent "https://example.com/e1" 1
    σPlace1 mPlace rfl rfl (by decide) (by decide) (by decide) (by decide)
    rfl rfl (by decide)

/-- C9: a result whose content is a raw string is replaced wholesale by
the fetched Thing exactly when `tryExtractPageMetadata` on that string
yields metadata; when it yields `none` (unparseable string, policy denial
or fetch failure) the string content is left unchanged, and the step is a
total function so no error is raised.  The hypothesis records that `new
URL("")` throws, which the WHATWG URL constructor guarantees; the source
additionally skips falsy (empty-string) content before ever consulting
`tryExtractPageMetadata`, which coincides with the unchanged branch. -/
theorem enrich_string_content (env : Env) (p : URLObj → Bool) (σ : MMState)
    (s : String) (hempty : env.parseURL "" = none) :
    attemptEnrichContentWithPageMetadata env
        [{ content := some (Content.str s) }] p σ =
      (match tryExtractPageMetadata env s p σ with
       | (some r, σ1) => ([{ content := some (Content.thing r) }], σ1)
       | (none, σ1) => ([{ content := some (Content.str s) }], σ1)) := by
  rw [attemptEnrich_singleton]
  by_cases hs : s = ""
  · subst hs
    have htr : tryExtractPageMetadata env "" p σ = (none, σ) := by
      unfold tryExtractPageMetadata checkIsFetchableURL
      rw [hempty]
    rw [htr]
    unfold enrichOne
    simp [contentFalsy]
  · have hfalsy : contentFalsy (some (Content.str s)) = false := by
      simp [contentFalsy, hs]
    unfold enrichOne
    cases htr : tryExtractPageMetadata env s p σ with
    | mk o σ1 => cases o <;> simp [hfalsy, htr]

/-- C8: when the document fetcher fails on `url`, `loadArtifactsFromHtmlUrl`
returns the empty list (being total, without raising), and leaves the page
metadata cache, the artifact store and the object heap untouched (only the
fetch-attempt log grows). -/
theorem loadArtifactsFromHtmlUrl_fetch_failure (env : Env) (url : URLObj)
    (σ : MMState) (hdoc : env.fetchDoc url.href = none) :
    loadArtifactsFromHtmlUrl env url σ =
      ([], { σ with fetchLog := σ.fetchLog ++ [url.href] }) ∧
    ((loadArtifactsFromHtmlUrl env url σ).2).cache = σ.cache ∧
    ((loadArtifactsFromHtmlUrl env url σ).2).heap = σ.heap ∧
    ((loadArtifactsFromHtmlUrl env url σ).2).store = σ.store := by
  unfold loadArtifactsFromHtmlUrl
  rw [hdoc]
  exact ⟨rfl, rfl, rfl, rfl⟩

/-- C6: the page metadata cache is keyed by URL instance identity.  With
an entry cached under instance `u1` (and nothing else cached), a distinct
but string-equal instance `u2` finds nothing, and `tryExtractPageMetadata`
on a candidate parsing to that same address performs its own fetch and
caches a fresh record instead of reusing `u1`'s entry. -/
theorem pageMetadataCache_identity_keyed
    (env : Env) (p : URLObj → Bool) (σ : MMState)
    (u1 u2 : URLObj) (r : Nat) (s : String) (spec : URLSpec) (doc : Doc)
    (hc : pageMetadataCacheGet σ u1 = some r)
    (honly : ∀ x, x ≠ u1.id → σ.cache x = none)
    (hid : u2.id ≠ u1.id) (hhref : u2.href = u1.href)
    (hparse : env.parseURL s = some spec) (hspec : spec.href = u1.href)
    (hp : p ⟨σ.nextId, spec.href, spec.origin⟩ = true)
    (hfresh : σ.nextId ≠ u1.id)
    (hdoc : env.fetchDoc spec.href = some doc) :
    pageMetadataCacheGet σ u2 = none ∧
    (tryExtractPageMetadata env s p σ).1 = some σ.nextRef ∧
    ((tryExtractPageMetadata env s p σ).2).fetchLog = σ.fetchLog ++ [spec.href] := by
  refine ⟨honly u2.id hid, ?_, ?_⟩ <;>
  · unfold tryExtractPageMetadata checkIsFetchableURL pageMetadataCacheGet
      savePageMetadata
    rw [hparse]
    simp only [hp, if_true]
    rw [honly σ.nextId hfresh]
    simp [hdoc]

/-- Empty initial state. -/
def σ0 : MMState :=
  { nextId := 0, nextRef := 0, heap := fun _ => none, cache := fun _ => none,
    fetchLog := [], store := [], dealerLog := [] }

/-- C3 (evidence of the divergence): two successive
`tryExtractPageMetadata` calls with the *same candidate string* each parse
a fresh `URL` instance, so even though the first call populated the cache
(under instance id 0), the second call's lookup (under instance id 1)
misses and the document is fetched a second time: the fetch log holds two
entries for the same address. -/
theorem tryExtractPageMetadata_refetches_same_candidate :
    (tryExtractPageMetadata envEvent "https://example.com/e1" pAll σ0).1 = some 0 ∧
    ((tryExtractPageMetadata envEvent "https://example.com/e1" pAll σ0).2).cache 0 = some 0 ∧
    ((tryExtractPageMetadata envEvent "https://example.com/e1" pAll
        (tryExtractPageMetadata envEvent "https://example.com/e1" pAll σ0).2).2).fetchLog =
      ["https://example.com/e1", "https://example.com/e1"] :=
  ⟨rfl, rfl, rfl⟩

/-- The state `tryExtractPageMetadata` reaches after a cache-missing,
successful fetch of `spec` (used to name the intermediate states in the
proofs about the merge path). -/
def postFetchState (env : Env) (spec : URLSpec) (doc : Doc) (σ : MMState) :
    MMState :=
  { σ with
    nextId := σ.nextId + 1,
    nextRef := σ.nextRef + 1,
    fetchLog := σ.fetchLog ++ [spec.href],
    heap := fun x =>
      if x = σ.nextRef then some (env.extractMeta doc spec.href) else σ.heap x,
    cache := fun x => if x = σ.nextId then some σ.nextRef else σ.cache x }

theorem tryExtractPageMetadata_fetch_path (env : Env) (p : URLObj → Bool)
    (σ : MMState) (u : String) (spec : URLSpec) (doc : Doc)
    (hparse : env.parseURL u = some spec)
    (hp : p ⟨σ.nextId, spec.href, spec.origin⟩ = true)
    (hmiss : σ.cache σ.nextId = none)
    (hdoc : env.fetchDoc spec.href = some doc) :
    tryExtractPageMetadata env u p σ =
      (some σ.nextRef, postFetchState env spec doc σ) := by
  unfold tryExtractPageMetadata checkIsFetchableURL pageMetadataCacheGet
    savePageMetadata postFetchState
  rw [hparse]
  simp only [hp, if_true]
  rw [hmiss]
  simp [hdoc]

/-- C4: after a type-matching merge, the enriched result's content and the
page-metadata cache entry for the fetched URL instance are the same heap
reference: `Object.assign` targets the cached Thing, so the fields copied
from the original content land in the cache entry itself, and any later
cache hit for that URL instance yields the mutated (merged) record, not
the metadata as originally extracted. -/
theorem enrich_merge_mutates_cache_entry
    (env : Env) (p : URLObj → Bool) (σ : MMState)
    (res : NearbyResult) (ref : Nat) (t : Thing) (u : String)
    (spec : URLSpec) (doc : Doc)
    (hcontent : res.content = some (Content.thing ref))
    (hheap : σ.heap ref = some t)
    (hfresh : ref < σ.nextRef)
    (hurl : getProp t "url" = some u) (hu : u ≠ "")
    (hname : getProp t "name" = none)
    (hparse : env.parseURL u = some spec)
    (hp : p ⟨σ.nextId, spec.href, spec.origin⟩ = true)
    (hmiss : σ.cache σ.nextId = none)
    (hdoc : env.fetchDoc spec.href = some doc)
    (htype : getProp (env.extractMeta doc spec.href) "@type" = getProp t "@type") :
    ∃ σf : MMState,
      attemptEnrichContentWithPageMetadata env [res] p σ =
        ([{ content := some (Content.thing σ.nextRef) }], σf) ∧
      σf.cache σ.nextId = some σ.nextRef ∧
      σf.heap σ.nextRef = some (objectAssign (env.extractMeta doc spec.href) t) := by
  have htry := tryExtractPageMetadata_fetch_path env p σ u spec doc hparse hp
    hmiss hdoc
  have hne : ¬ ref = σ.nextRef := by omega
  have hm : (postFetchState env spec doc σ).heap σ.nextRef =
      some (env.extractMeta doc spec.href) := by
    simp [postFetchState]
  have ht1 : (postFetchState env spec doc σ).heap ref = some t := by
    simp [postFetchState, hne, hheap]
  have hmerge := enrichOne_merge env p σ res ref t u σ.nextRef _ _ hcontent hheap
    hurl hu hname htry hm ht1 htype
  refine ⟨{ postFetchState env spec doc σ with
            heap := fun x =>
              if x = σ.nextRef then
                some (objectAssign (env.extractMeta doc spec.href) t)
              else (postFetchState env spec doc σ).heap x },
          ?_, ?_, ?_⟩
  · rw [attemptEnrich_singleton, hmerge]
  · simp [postFetchState]
  · simp

/-- C7: whenever `marker.value` is a fetchable URL under the (normalized)
policy, `markerFound` runs `loadArtifactsFromHtmlUrl` to completion before
querying the artifact dealer: the dealer query (recorded with the store
contents it saw) receives the store already extended with the artifacts
loaded from that URL, and the dealer delta's found list is enriched before
the delta is returned. -/
theorem markerFound_indexes_before_dealer
    (env : Env) (marker : Marker) (p : URLObj → Bool) (σ : MMState)
    (spec : URLSpec) (doc : Doc)
    (hparse : env.parseURL marker.value = some spec)
    (hp : p ⟨σ.nextId, spec.href, spec.origin⟩ = true)
    (hdoc : env.fetchDoc spec.href = some doc) :
    ∃ σe : MMState,
      σe.store = σ.store ++ env.loadFromElement doc spec.href ∧
      σe.dealerLog =
        σ.dealerLog ++
          [(marker.value, σ.store ++ env.loadFromElement doc spec.href)] ∧
      markerFound env marker (some (Sum.inl p)) σ =
        (let delta :=
          env.dealerMarkerFound marker (σ.store ++ env.loadFromElement doc spec.href)
         let er := attemptEnrichContentWithPageMetadata env delta.found p σe
         ({ found := er.1, lost := delta.lost }, er.2)) := by
  refine ⟨{ postFetchState env spec doc σ with
            store := σ.store ++ env.loadFromElement doc spec.href,
            dealerLog := σ.dealerLog ++
              [(marker.value, σ.store ++ env.loadFromElement doc spec.href)] },
          rfl, rfl, ?_⟩
  unfold markerFound normalizeShouldFetchFn checkIsFetchableURL
    loadArtifactsFromHtmlUrl savePageMetadata postFetchState
  rw [hparse]
  simp only [hp, if_true, hdoc]

/-- URL instance id 0 for `https://example.com/e1`. -/
def u1C6 : URLObj := ⟨0, "https://example.com/e1", "https://example.com"⟩

/-- A second, distinct URL instance (id 1) for the same address string. -/
def u2C6 : URLObj := ⟨1, "https://example.com/e1", "https://example.com"⟩

/-- A state whose metadata cache holds exactly one entry, keyed by the
instance `u1C6`. -/
def σC6 : MMState :=
  { nextId := 1, nextRef := 1,
    heap := fun x => if x = 0 then some mEvent else none,
    cache := fun x => if x = 0 then some 0 else none,
    fetchLog := [], store := [], dealerLog := [] }

/-- Environment whose document fetcher always fails. -/
def envFail : Env := { envEvent with fetchDoc := fun _ => none }

theorem enrich_merge_mutates_cache_entry_witness :
    ∃ σf : MMState,
      attemptEnrichContentWithPageMetadata envEvent
          [{ content := some (Content.thing 0) }] pAll σEvent =
        ([{ content := some (Content.thing 1) }], σf) ∧
      σf.cache 0 = some 1 ∧
      σf.heap 1 = some (objectAssign mEvent tEvent) :=
  enrich_merge_mutates_cache_entry envEvent pAll σEvent
    { content := some (Content.thing 0) } 0 tEvent "https://example.com/e1"
    ⟨"https://example.com/e1", "https://example.com"⟩ 0
    rfl rfl (by decide) (by decide) (by decide) (by decide) rfl rfl rfl rfl
    (by decide)

theorem pageMetadataCache_identity_keyed_witness :
    pageMetadataCacheGet σC6 u2C6 = none ∧
    (tryExtractPageMetadata envEvent "https://example.com/e1" pAll σC6).1 = some 1 ∧
    ((tryExtractPageMetadata envEvent "https://example.com/e1" pAll σC6).2).fetchLog =
      ["https://example.com/e1"] :=
  pageMetadataCache_identity_keyed envEvent pAll σC6 u1C6 u2C6 0
    "https://example.com/e1" ⟨"https://example.com/e1", "https://example.com"⟩ 0
    rfl
    (by
      intro x hx
      have hx0 : ¬ x = 0 := by simpa [u1C6] using hx
      simp [σC6, hx0])
    (by decide) rfl rfl rfl rfl (by decide) rfl

theorem markerFound_indexes_before_dealer_witness :
    ∃ σe : MMState,
      σe.store = [7] ∧
      σe.dealerLog = [("https://example.com/e1", [7])] ∧
      markerFound envEvent ⟨"https://example.com/e1"⟩ (some (Sum.inl pAll)) σ0 =
        (let delta := envEvent.dealerMarkerFound ⟨"https://example.com/e1"⟩ [7]
         let er := attemptEnrichContentWithPageMetadata envEvent delta.found pAll σe
         ({ found := er.1, lost := delta.lost }, er.2)) :=
  markerFound_indexes_before_dealer envEvent ⟨"https://example.com/e1"⟩ pAll σ0
    ⟨"https://example.com/e1", "https://example.com"⟩ 0 rfl rfl rfl

theorem loadArtifactsFromHtmlUrl_fetch_failure_witness :
    loadArtifactsFromHtmlUrl envFail u1C6 σ0 =
      ([], { σ0 with fetchLog := ["https://example.com/e1"] }) ∧
    ((loadArtifactsFromHtmlUrl envFail u1C6 σ0).2).cache = σ0.cache ∧
    ((loadArtifactsFromHtmlUrl envFail u1C6 σ0).2).heap = σ0.heap ∧
    ((loadArtifactsFromHtmlUrl envFail u1C6 σ0).2).store = σ0.store :=
  loadArtifactsFromHtmlUrl_fetch_failure envFail u1C6 σ0 rfl

theorem enrich_string_content_witness :
    attemptEnrichContentWithPageMetadata envEvent
        [{ content := some (Content.str "not a url") }] pAll σ0 =
      ([{ content := some (Content.str "not a url") }], σ0) :=
  enrich_string_content envEvent pAll σ0 "not a url" rfl
